import Mathlib

/-!
Verification development for the SpotiTransFair backend (matching and
reconciliation pipeline).  Python sources are shallowly embedded:

* `backend/matcher.py`   -> `normalizeString`, `calculateScore`, `matchTrack`
* `backend/ytm.py`       -> `ytmNormalize`, `searchTrackExactish`,
                            `getVideoIds`, `addChunk` / `addTracksResilient`,
                            `dedupFirst` / `createYtmReport`
* `backend/worker.py`    -> `processImportJob`, `finalizeImportJob`
* `backend/routers/imports.py` -> `applyOne` / `applyDecision` / `applyDecisions`
* `backend/spotify.py`   -> `spotifyInitParams`, `spotifyRequest`
* `backend/tidal.py`     -> `tidalAddTracks`

Modelling conventions: Python strings are `String` (lists of characters);
regular-expression character classes are modelled over the ASCII range;
machine floats are modelled by `Rat`; network calls are oracles passed as
function arguments; exceptions are `Except` or explicit failure branches.
-/

/-- Python truthiness of an optional string (`None` and `""` are falsy). -/
def truthyOpt : Option String → Bool
  | none => false
  | some s => s ≠ ""

/-- Python `\s` over the ASCII range (space, tab, newline, CR, FF, VT). -/
def pySpace (c : Char) : Bool :=
  c = ' ' ∨ c = '\t' ∨ c = '\n' ∨ c = '\r' ∨ c = '\x0c' ∨ c = '\x0b'

/-- Python `\w` over the ASCII range: letters, digits and underscore. -/
def pyWord (c : Char) : Bool :=
  (('a' ≤ c ∧ c ≤ 'z') ∨ ('A' ≤ c ∧ c ≤ 'Z') ∨ ('0' ≤ c ∧ c ≤ '9') ∨ c = '_')

/-- `str.lower()` (ASCII range). -/
def pyLower (l : List Char) : List Char := l.map Char.toLower

/-- Does `p` occur at the head of `s`? (helper for substring search). -/
def headMatch : List Char → List Char → Bool
  | [], _ => true
  | _ :: _, [] => false
  | p :: ps, s :: ss => p = s && headMatch ps ss

/-- Python `p in s` for strings: `p` occurs contiguously inside `s`. -/
def subSeq (p : List Char) : List Char → Bool
  | [] => headMatch p []
  | s :: ss => headMatch p (s :: ss) || subSeq p ss

/-- Length of the character run matched by a lazy `.*?` up to the first
occurrence of `close` (`.` does not match a newline).  `none` when no
closing character is reachable on the current line. -/
def lazyUpto (close : Char) : List Char → Option ℕ
  | [] => none
  | c :: rest =>
    if c = close then some 0
    else if c = '\n' then none
    else (lazyUpto close rest).map (· + 1)

/-- `re.sub(r"\(feat\..*?\)", "", s)` from `matcher.normalize_string`:
drop each `(feat.` clause up to the nearest `)` on the same line.  The
fuel argument only bounds the recursion (every recursive call shortens the
list, so `featDrop` passes the input length and the `0` case is never
reached); it keeps the definition structurally recursive so that concrete
inputs evaluate inside the kernel. -/
def featDropF : ℕ → List Char → List Char
  | 0, l => l
  | _ + 1, [] => []
  | fuel + 1, c :: rest =>
    if headMatch ('(' :: 'f' :: 'e' :: 'a' :: 't' :: '.' :: []) (c :: rest) then
      match lazyUpto ')' (rest.drop 5) with
      | some n => featDropF fuel ((rest.drop 5).drop (n + 1))
      | none => c :: featDropF fuel rest
    else c :: featDropF fuel rest

def featDrop (l : List Char) : List Char := featDropF l.length l

/-- `re.sub(r"\(feat\.[^)]+\)", "", s)` from `ytm._normalize`: drop each
`(feat.` clause with a non-empty run of non-`)` characters before `)`. -/
def nonParenRun : List Char → Option ℕ
  | [] => none
  | c :: rest =>
    if c = ')' then some 0
    else (nonParenRun rest).map (· + 1)

def featDropPlusF : ℕ → List Char → List Char
  | 0, l => l
  | _ + 1, [] => []
  | fuel + 1, c :: rest =>
    if headMatch ('(' :: 'f' :: 'e' :: 'a' :: 't' :: '.' :: []) (c :: rest) then
      match nonParenRun (rest.drop 5) with
      | some n =>
        if 0 < n then featDropPlusF fuel ((rest.drop 5).drop (n + 1))
        else c :: featDropPlusF fuel rest
      | none => c :: featDropPlusF fuel rest
    else c :: featDropPlusF fuel rest

def featDropPlus (l : List Char) : List Char := featDropPlusF l.length l

/-- `re.sub(r"\[.*?\]", "", s)` from `ytm._normalize`: drop each
square-bracketed clause closed on the same line. -/
def bracketDropF : ℕ → List Char → List Char
  | 0, l => l
  | _ + 1, [] => []
  | fuel + 1, c :: rest =>
    if c = '[' then
      match lazyUpto ']' rest with
      | some n => bracketDropF fuel (rest.drop (n + 1))
      | none => c :: bracketDropF fuel rest
    else c :: bracketDropF fuel rest

def bracketDrop (l : List Char) : List Char := bracketDropF l.length l

/-- `re.sub(r"-\s*remastered.*", "", s)` from `matcher.normalize_string`:
from a `-` followed by optional whitespace and `remastered`, delete up to
the end of the line. -/
def remDropF : ℕ → List Char → List Char
  | 0, l => l
  | _ + 1, [] => []
  | fuel + 1, c :: rest =>
    if c = '-' && headMatch ('r' :: 'e' :: 'm' :: 'a' :: 's' :: 't' :: 'e' :: 'r' :: 'e' :: 'd' :: [])
        (rest.dropWhile pySpace) then
      remDropF fuel (((rest.dropWhile pySpace).drop 10).dropWhile (fun d => d ≠ '\n'))
    else c :: remDropF fuel rest

def remDrop (l : List Char) : List Char := remDropF l.length l

/-- `re.sub(r"\s+", " ", s)`: collapse every whitespace run to one space. -/
def collapseWsF : ℕ → List Char → List Char
  | 0, l => l
  | _ + 1, [] => []
  | fuel + 1, c :: rest =>
    if pySpace c then ' ' :: collapseWsF fuel (rest.dropWhile pySpace)
    else c :: collapseWsF fuel rest

def collapseWs (l : List Char) : List Char := collapseWsF l.length l

/-- `str.strip()`: drop leading and trailing whitespace. -/
def pyStrip (l : List Char) : List Char :=
  ((l.dropWhile pySpace).reverse.dropWhile pySpace).reverse

/-- `matcher.normalize_string` (backend/matcher.py lines 6-18): lowercase,
drop `(feat. ...)` clauses, drop `- remastered...` tails, delete every
character outside `\w\s`, collapse whitespace, strip.  The leading
`if not s: return ""` is the `none` case of `normalizeStringOpt`. -/
def normalizeStringL (l : List Char) : List Char :=
  pyStrip (collapseWs ((remDrop (featDrop (pyLower l))).filter
    (fun c => pyWord c || pySpace c)))

def normalizeString (s : String) : String := ⟨normalizeStringL s.data⟩

/-- `normalize_string` applied to an optional value (`None` is falsy and
yields `""` via the `if not s` guard). -/
def normalizeStringOpt : Option String → String
  | none => ""
  | some s => if s = "" then "" else normalizeString s

/-- Characters kept by `ytm._normalize`'s class `[a-z0-9\s\-:&]`. -/
def ytmKeep (c : Char) : Bool :=
  ('a' ≤ c ∧ c ≤ 'z') ∨ ('0' ≤ c ∧ c ≤ '9') ∨ pySpace c ∨ c = '-' ∨ c = ':' ∨ c = '&'

/-- `ytm._normalize` (backend/ytm.py lines 96-103): lowercase, drop
`(feat. ...)` clauses (non-empty body), drop `[...]` clauses, replace every
character outside `[a-z0-9\s\-:&]` by a space, collapse whitespace, strip. -/
def ytmNormalizeL (l : List Char) : List Char :=
  pyStrip (collapseWs ((bracketDrop (featDropPlus (pyLower l))).map
    (fun c => if ytmKeep c then c else ' ')))

def ytmNormalize (s : String) : String := ⟨ytmNormalizeL s.data⟩

/-! ### difflib.SequenceMatcher ratio (used with `isjunk=None`)

`calculate_score` computes `SequenceMatcher(None, a, b).ratio()`: the sum `M`
of the sizes of the matching blocks found by recursively taking, in each
window, the longest common contiguous run that starts earliest in `a` and,
among those, earliest in `b`; the ratio is `2·M/(|a|+|b|)` (and `1.0` for two
empty strings).  The `autojunk` popularity heuristic, which only activates
when the second string has at least 200 characters, is not modelled. -/

/-- Length of the common run of `a` and `b` starting at `(i, j)` inside the
windows `[.., ahi)` and `[.., bhi)`. -/
def runLen (a b : List Char) (ahi bhi : ℕ) (i j : ℕ) : ℕ :=
  if h : i < ahi ∧ j < bhi ∧ a.getD i ' ' = b.getD j ' ' then
    runLen a b ahi bhi (i + 1) (j + 1) + 1
  else 0
termination_by ahi - i
decreasing_by omega

lemma runLen_le_a (a b : List Char) (ahi bhi : ℕ) :
    ∀ i j, i + runLen a b ahi bhi i j ≤ ahi ∨ runLen a b ahi bhi i j = 0 := by
  intro i j
  rw [runLen]
  split
  · rename_i h
    left
    have ih := runLen_le_a a b ahi bhi (i + 1) (j + 1)
    rcases ih with h1 | h1
    · omega
    · rw [h1]; omega
  · right; rfl
termination_by i j => ahi - i
decreasing_by omega

lemma runLen_le_b (a b : List Char) (ahi bhi : ℕ) :
    ∀ i j, j + runLen a b ahi bhi i j ≤ bhi ∨ runLen a b ahi bhi i j = 0 := by
  intro i j
  rw [runLen]
  split
  · rename_i h
    left
    have ih := runLen_le_b a b ahi bhi (i + 1) (j + 1)
    rcases ih with h1 | h1
    · omega
    · rw [h1]; omega
  · right; rfl
termination_by i j => ahi - i
decreasing_by omega

/-- Inner scan over the `b`-window: keep the first strictly longer run. -/
def flmScanJ (a b : List Char) (ahi bhi i : ℕ) :
    List ℕ → ℕ × ℕ × ℕ → ℕ × ℕ × ℕ
  | [], best => best
  | j :: js, best =>
    let k := runLen a b ahi bhi i j
    flmScanJ a b ahi bhi i js (if best.2.2 < k then (i, j, k) else best)

/-- Outer scan over the `a`-window. -/
def flmScanI (a b : List Char) (ahi bhi blo : ℕ) (bw : ℕ) :
    List ℕ → ℕ × ℕ × ℕ → ℕ × ℕ × ℕ
  | [], best => best
  | i :: is, best =>
    flmScanI a b ahi bhi blo bw is (flmScanJ a b ahi bhi i (List.range' blo bw) best)

/-- `find_longest_match` on the windows `[alo, ahi) × [blo, bhi)`: the
longest matching run, earliest in `a` then earliest in `b`. -/
def flm (a b : List Char) (alo ahi blo bhi : ℕ) : ℕ × ℕ × ℕ :=
  flmScanI a b ahi bhi blo (bhi - blo) (List.range' alo (ahi - alo)) (alo, blo, 0)

/-- Invariant carried by every candidate best triple during the scans. -/
def flmInv (a b : List Char) (alo ahi blo bhi : ℕ) (best : ℕ × ℕ × ℕ) : Prop :=
  best = (alo, blo, 0) ∨
    (alo ≤ best.1 ∧ best.1 + best.2.2 ≤ ahi ∧ blo ≤ best.2.1 ∧
      best.2.1 + best.2.2 ≤ bhi ∧ 0 < best.2.2)

lemma flmScanJ_inv (a b : List Char) (alo ahi blo bhi i : ℕ)
    (hi : alo ≤ i ∧ i < ahi) :
    ∀ (js : List ℕ) (best : ℕ × ℕ × ℕ),
      (∀ j ∈ js, blo ≤ j ∧ j < bhi) →
      flmInv a b alo ahi blo bhi best →
      flmInv a b alo ahi blo bhi (flmScanJ a b ahi bhi i js best) := by
  intro js
  induction js with
  | nil => intro best _ hb; exact hb
  | cons j js ih =>
    intro best hmem hb
    simp only [flmScanJ]
    apply ih
    · intro x hx; exact hmem x (List.mem_cons_of_mem _ hx)
    · by_cases hlt : best.2.2 < runLen a b ahi bhi i j
      · simp only [if_pos hlt]
        right
        have hj := hmem j (List.mem_cons_self _ _)
        have ha := runLen_le_a a b ahi bhi i j
        have hbnd := runLen_le_b a b ahi bhi i j
        have hk : 0 < runLen a b ahi bhi i j := by omega
        rcases ha with ha | ha
        · rcases hbnd with hbb | hbb
          · exact ⟨hi.1, ha, hj.1, hbb, hk⟩
          · omega
        · omega
      · simp only [if_neg hlt]; exact hb

lemma flmScanI_inv (a b : List Char) (alo ahi blo bhi : ℕ) :
    ∀ (is : List ℕ) (best : ℕ × ℕ × ℕ),
      (∀ i ∈ is, alo ≤ i ∧ i < ahi) →
      flmInv a b alo ahi blo bhi best →
      flmInv a b alo ahi blo bhi
        (flmScanI a b ahi bhi blo (bhi - blo) is best) := by
  intro is
  induction is with
  | nil => intro best _ hb; exact hb
  | cons i is ih =>
    intro best hmem hb
    simp only [flmScanI]
    apply ih
    · intro x hx; exact hmem x (List.mem_cons_of_mem _ hx)
    · apply flmScanJ_inv a b alo ahi blo bhi i (hmem i (List.mem_cons_self _ _))
      · intro j hj
        rw [List.mem_range'] at hj
        omega
      · exact hb

lemma flm_bounds (a b : List Char) (alo ahi blo bhi : ℕ)
    (h : 0 < (flm a b alo ahi blo bhi).2.2) :
    alo ≤ (flm a b alo ahi blo bhi).1 ∧
    (flm a b alo ahi blo bhi).1 + (flm a b alo ahi blo bhi).2.2 ≤ ahi ∧
    blo ≤ (flm a b alo ahi blo bhi).2.1 ∧
    (flm a b alo ahi blo bhi).2.1 + (flm a b alo ahi blo bhi).2.2 ≤ bhi := by
  have hinv : flmInv a b alo ahi blo bhi (flm a b alo ahi blo bhi) := by
    apply flmScanI_inv
    · intro i hi
      rw [List.mem_range'] at hi
      omega
    · left; rfl
  rcases hinv with heq | hP
  · rw [heq] at h; simp at h
  · exact ⟨hP.1, hP.2.1, hP.2.2.1, hP.2.2.2.1⟩

/-- Total size of the matching blocks of the recursive decomposition
(`get_matching_blocks` summed). -/
def matchedTotal (a b : List Char) (alo ahi blo bhi : ℕ) : ℕ :=
  if h : 0 < (flm a b alo ahi blo bhi).2.2 then
    matchedTotal a b alo (flm a b alo ahi blo bhi).1 blo
        (flm a b alo ahi blo bhi).2.1 +
      (flm a b alo ahi blo bhi).2.2 +
      matchedTotal a b
        ((flm a b alo ahi blo bhi).1 + (flm a b alo ahi blo bhi).2.2) ahi
        ((flm a b alo ahi blo bhi).2.1 + (flm a b alo ahi blo bhi).2.2) bhi
  else 0
termination_by (ahi - alo) + (bhi - blo)
decreasing_by
  · have hb := flm_bounds a b alo ahi blo bhi h
    omega
  · have hb := flm_bounds a b alo ahi blo bhi h
    omega

/-- `SequenceMatcher(None, a, b).ratio()` (`2·M/(|a|+|b|)`; `1.0` when both
strings are empty, per `difflib._calculate_ratio`). -/
def pyRatio (a b : List Char) : ℚ :=
  if a.length + b.length = 0 then 1
  else (2 * (matchedTotal a b 0 a.length 0 b.length) : ℚ) / (a.length + b.length)

/-! ### backend/matcher.py : scoring and classification -/

/-- `models.ItemStatus`. -/
inductive ItemStatus where
  | MATCHED
  | UNCERTAIN
  | NOT_FOUND
  | SKIPPED
deriving DecidableEq, Repr

/-- A source track as produced by the Spotify adapter (dict keys `name`,
`artists`, `duration_ms`, `isrc`; missing keys default as in the code). -/
structure SrcTrack where
  name : String
  artists : List String
  duration_ms : ℕ
  isrc : Option String
deriving DecidableEq, Repr

/-- A target-catalog candidate (dict keys `title`, `artists`, `duration` in
seconds, `isrc`). -/
structure Cand where
  title : String
  artists : List String
  duration : ℕ
  isrc : Option String
deriving DecidableEq, Repr

/-- Python `max` over a non-empty list, with `0.0` for the empty list
(`max(scores) if scores else 0.0`). -/
def pyMaxQ : List ℚ → ℚ
  | [] => 0
  | q :: qs => qs.foldl max q

/-- `matcher.calculate_score` (backend/matcher.py lines 20-62). -/
def calculateScore (source : SrcTrack) (target : Cand) : ℚ :=
  if truthyOpt source.isrc ∧ truthyOpt target.isrc ∧ source.isrc = target.isrc then 1
  else
    let src_title := normalizeString source.name
    let tgt_title := normalizeString target.title
    let title_score := pyRatio src_title.data tgt_title.data
    let src_artists := source.artists.map normalizeString
    let tgt_artists := target.artists.map normalizeString
    let artist_score :=
      if src_artists ≠ [] ∧ tgt_artists ≠ [] then
        pyMaxQ (src_artists.flatMap (fun sa =>
          tgt_artists.map (fun ta => pyRatio sa.data ta.data)))
      else 0
    let src_dur : ℕ := source.duration_ms
    let tgt_dur : ℕ := target.duration * 1000
    let duration_score : ℚ :=
      if src_dur ≠ 0 ∧ tgt_dur ≠ 0 then
        if (15000 : ℤ) < |(src_dur : ℤ) - (tgt_dur : ℤ)| then 0
        else if (5000 : ℤ) < |(src_dur : ℤ) - (tgt_dur : ℤ)| then 1/2
        else 1
      else 1
    title_score * (1/2) + artist_score * (7/20) + duration_score * (3/20)

/-- The `for cand in candidates` loop of `match_track`: running best match
and best score (`score > best_score` keeps the first maximum). -/
def matchGo (src : SrcTrack) : List Cand → Option Cand × ℚ → Option Cand × ℚ
  | [], acc => acc
  | c :: cs, acc =>
    matchGo src cs
      (if acc.2 < calculateScore src c then (some c, calculateScore src c) else acc)

/-- `matcher.match_track` (backend/matcher.py lines 64-83): loop as in
`matchGo`, then the threshold classification on the final best score. -/
def matchTrack (src : SrcTrack) (cands : List Cand) : Option Cand × ItemStatus :=
  if cands = [] then (none, ItemStatus.NOT_FOUND)
  else if (9 : ℚ)/10 < (matchGo src cands (none, 0)).2 then
    ((matchGo src cands (none, 0)).1, ItemStatus.MATCHED)
  else if (3 : ℚ)/4 ≤ (matchGo src cands (none, 0)).2 then
    ((matchGo src cands (none, 0)).1, ItemStatus.UNCERTAIN)
  else (none, ItemStatus.NOT_FOUND)

/-- The score the loop converges to: `foldl max` of the candidate scores
seeded with the initial `best_score = 0.0`. -/
def bestScore (src : SrcTrack) (cands : List Cand) : ℚ :=
  (cands.map (calculateScore src)).foldl max 0

lemma matchGo_snd (src : SrcTrack) :
    ∀ (cs : List Cand) (acc : Option Cand × ℚ),
      (matchGo src cs acc).2 = (cs.map (calculateScore src)).foldl max acc.2 := by
  intro cs
  induction cs with
  | nil => intro acc; rfl
  | cons c cs ih =>
    intro acc
    simp only [matchGo, List.map_cons, List.foldl_cons]
    rw [ih]
    rcases lt_or_le acc.2 (calculateScore src c) with h | h
    · rw [if_pos h, max_eq_right (le_of_lt h)]
    · rw [if_neg (not_lt.mpr h), max_eq_left h]

lemma le_foldl_max : ∀ (l : List ℚ) (q : ℚ), q ≤ l.foldl max q := by
  intro l
  induction l with
  | nil => intro q; exact le_refl q
  | cons x xs ih =>
    intro q
    simp only [List.foldl_cons]
    exact le_trans (le_max_left q x) (ih (max q x))

lemma matchGo_fst_stay (src : SrcTrack) :
    ∀ (cs : List Cand) (acc : Option Cand × ℚ),
      (matchGo src cs acc).2 = acc.2 → (matchGo src cs acc).1 = acc.1 := by
  intro cs
  induction cs with
  | nil => intro acc _; rfl
  | cons c cs ih =>
    intro acc heq
    simp only [matchGo] at *
    rcases lt_or_le acc.2 (calculateScore src c) with h | h
    · exfalso
      rw [if_pos h] at heq
      rw [matchGo_snd] at heq
      have h3 := le_foldl_max ((cs.map (calculateScore src))) (calculateScore src c)
      simp only at heq
      linarith
    · rw [if_neg (not_lt.mpr h)] at heq ⊢
      exact ih acc heq

lemma matchGo_fst_new (src : SrcTrack) :
    ∀ (cs : List Cand) (acc : Option Cand × ℚ),
      acc.2 < (matchGo src cs acc).2 →
      ∃ pre c post, cs = pre ++ c :: post ∧
        (matchGo src cs acc).1 = some c ∧
        calculateScore src c = (matchGo src cs acc).2 ∧
        ∀ p ∈ pre, calculateScore src p < (matchGo src cs acc).2 := by
  intro cs
  induction cs with
  | nil => intro acc h; exact absurd h (lt_irrefl _)
  | cons c cs ih =>
    intro acc h
    simp only [matchGo] at *
    rcases lt_or_le acc.2 (calculateScore src c) with hc | hc
    · rw [if_pos hc] at h ⊢
      have hle : (calculateScore src c : ℚ)
          ≤ (matchGo src cs (some c, calculateScore src c)).2 := by
        rw [matchGo_snd]
        exact le_foldl_max (cs.map (calculateScore src)) (calculateScore src c)
      rcases eq_or_lt_of_le hle with heq | hlt
      · refine ⟨[], c, cs, rfl, ?_, heq, ?_⟩
        · exact matchGo_fst_stay src cs (some c, calculateScore src c) heq.symm
        · intro p hp; cases hp
      · obtain ⟨pre, d, post, hdec, hfst, hsc, hpre⟩ := ih (some c, calculateScore src c) hlt
        refine ⟨c :: pre, d, post, by simp [hdec], hfst, hsc, ?_⟩
        intro p hp
        rcases List.mem_cons.mp hp with hpc | hpp
        · rw [hpc]; exact hlt
        · exact hpre p hpp
    · rw [if_neg (not_lt.mpr hc)] at h ⊢
      obtain ⟨pre, d, post, hdec, hfst, hsc, hpre⟩ := ih acc h
      refine ⟨c :: pre, d, post, by simp [hdec], hfst, hsc, ?_⟩
      intro p hp
      rcases List.mem_cons.mp hp with hpc | hpp
      · rw [hpc]; exact lt_of_le_of_lt hc h
      · exact hpre p hpp

lemma matchGo_seed_snd (src : SrcTrack) (cands : List Cand) :
    (matchGo src cands (none, (0 : ℚ))).2 = bestScore src cands := by
  rw [matchGo_snd]; rfl

lemma matchGo_seed_some (src : SrcTrack) (cands : List Cand)
    (h : (0 : ℚ) < bestScore src cands) :
    ∃ pre c post, cands = pre ++ c :: post ∧
      (matchGo src cands (none, (0 : ℚ))).1 = some c ∧
      calculateScore src c = bestScore src cands ∧
      ∀ p ∈ pre, calculateScore src p < bestScore src cands := by
  have h2 := matchGo_seed_snd src cands
  have h3 : ((none, (0 : ℚ)) : Option Cand × ℚ).2
      < (matchGo src cands (none, (0 : ℚ))).2 := by
    rw [h2]; exact h
  obtain ⟨pre, c, post, hdec, hfst, hsc, hpre⟩ := matchGo_fst_new src cands _ h3
  rw [h2] at hsc hpre
  exact ⟨pre, c, post, hdec, hfst, hsc, hpre⟩

/-- Claim C3: for every source track and candidate list, `match_track`
returns `(none, NOT_FOUND)` on an empty list; otherwise the best is the
highest-scoring candidate with ties resolved to the first seen, the
classification agrees with the thresholds on the best score
(`> 0.90` MATCHED, `0.75–0.90` inclusive UNCERTAIN, `< 0.75` NOT_FOUND with
the best discarded), and the returned best is `none` iff the
classification is NOT_FOUND. -/
theorem C3_match_classification (src : SrcTrack) (cands : List Cand) :
    (cands = [] → matchTrack src cands = (none, ItemStatus.NOT_FOUND)) ∧
    (cands ≠ [] →
      ((matchTrack src cands).2 = ItemStatus.MATCHED ↔
        (9 : ℚ)/10 < bestScore src cands) ∧
      ((matchTrack src cands).2 = ItemStatus.UNCERTAIN ↔
        ((3 : ℚ)/4 ≤ bestScore src cands ∧ bestScore src cands ≤ (9 : ℚ)/10)) ∧
      ((matchTrack src cands).2 = ItemStatus.NOT_FOUND ↔
        bestScore src cands < (3 : ℚ)/4) ∧
      ((matchTrack src cands).1 = none ↔
        (matchTrack src cands).2 = ItemStatus.NOT_FOUND) ∧
      (∀ c, (matchTrack src cands).1 = some c →
        ∃ pre post, cands = pre ++ c :: post ∧
          calculateScore src c = bestScore src cands ∧
          ∀ p ∈ pre, calculateScore src p < bestScore src cands)) := by
  constructor
  · intro h
    rw [matchTrack, if_pos h]
  · intro h
    have hm2 := matchGo_seed_snd src cands
    by_cases h9 : (9 : ℚ)/10 < bestScore src cands
    · have hmt : matchTrack src cands
          = ((matchGo src cands (none, 0)).1, ItemStatus.MATCHED) := by
        rw [matchTrack, if_neg h, if_pos (by rw [hm2]; exact h9)]
      obtain ⟨pre, c, post, hdec, hfst, hsc, hpre⟩ :=
        matchGo_seed_some src cands (by linarith)
      rw [hmt]
      refine ⟨?_, ?_, ?_, ?_, ?_⟩
      · simpa using h9
      · simp only
        constructor
        · intro hcon; cases hcon
        · intro hcon; linarith [hcon.2]
      · simp only
        constructor
        · intro hcon; cases hcon
        · intro hcon; linarith
      · simp only [hfst]
        constructor
        · intro hcon; cases hcon
        · intro hcon; cases hcon
      · intro c' hc'
        simp only [hfst] at hc'
        cases hc'
        exact ⟨pre, post, hdec, hsc, hpre⟩
    · by_cases h75 : (3 : ℚ)/4 ≤ bestScore src cands
      · have hmt : matchTrack src cands
            = ((matchGo src cands (none, 0)).1, ItemStatus.UNCERTAIN) := by
          rw [matchTrack, if_neg h, if_neg (by rw [hm2]; exact h9),
            if_pos (by rw [hm2]; exact h75)]
        obtain ⟨pre, c, post, hdec, hfst, hsc, hpre⟩ :=
          matchGo_seed_some src cands (by linarith)
        rw [hmt]
        refine ⟨?_, ?_, ?_, ?_, ?_⟩
        · simp only
          constructor
          · intro hcon; cases hcon
          · intro hcon; exact absurd hcon h9
        · simp only
          exact iff_of_true trivial ⟨h75, not_lt.mp h9⟩
        · simp only
          constructor
          · intro hcon; cases hcon
          · intro hcon; linarith
        · simp only [hfst]
          constructor
          · intro hcon; cases hcon
          · intro hcon; cases hcon
        · intro c' hc'
          simp only [hfst] at hc'
          cases hc'
          exact ⟨pre, post, hdec, hsc, hpre⟩
      · have hmt : matchTrack src cands = (none, ItemStatus.NOT_FOUND) := by
          rw [matchTrack, if_neg h, if_neg (by rw [hm2]; exact h9),
            if_neg (by rw [hm2]; exact h75)]
        rw [hmt]
        refine ⟨?_, ?_, ?_, ?_, ?_⟩
        · simp only
          constructor
          · intro hcon; cases hcon
          · intro hcon; exact absurd hcon h9
        · simp only
          constructor
          · intro hcon; cases hcon
          · intro hcon; exact absurd hcon.1 h75
        · simp only
          exact iff_of_true trivial (not_le.mp h75)
        · simp only
        · intro c' hc'
          cases hc'

/-- Witness for C3 at a concrete input: one candidate with the same ISRC
(score `1.0`), hence MATCHED with the threshold satisfied. -/
theorem C3_match_classification_witness :
    (([⟨"anything", ["B"], 120, some "US12345"⟩] : List Cand) ≠ []) ∧
    ((matchTrack ⟨"Song", ["A"], 180000, some "US12345"⟩
        [⟨"anything", ["B"], 120, some "US12345"⟩]).2 = ItemStatus.MATCHED ↔
      (9 : ℚ)/10 < bestScore ⟨"Song", ["A"], 180000, some "US12345"⟩
        [⟨"anything", ["B"], 120, some "US12345"⟩]) :=
  ⟨by decide, ((C3_match_classification ⟨"Song", ["A"], 180000, some "US12345"⟩
      [⟨"anything", ["B"], 120, some "US12345"⟩]).2 (by decide)).1⟩

/-! ### Claim C7: the normalizer -/

/-- Modelled from the spec (section 4.1): the normalization pipeline exactly
as the specification words it — lowercasing, deletion of parenthesized
"feat." clauses, deletion of square-bracketed clauses, stripping of a
trailing "- remastered…" suffix, removal of punctuation except
hyphen/colon/ampersand, whitespace collapsing, trimming.  Used only to
compare the spec's wording with the two normalizers found in the source. -/
def specKeep (c : Char) : Bool :=
  ('a' ≤ c ∧ c ≤ 'z') ∨ ('A' ≤ c ∧ c ≤ 'Z') ∨ ('0' ≤ c ∧ c ≤ '9') ∨
    pySpace c ∨ c = '-' ∨ c = ':' ∨ c = '&'

def specRemStrip : List Char → List Char
  | [] => []
  | c :: rest =>
    if c = '-' && headMatch ('r' :: 'e' :: 'm' :: 'a' :: 's' :: 't' :: 'e' :: 'r' :: 'e' :: 'd' :: [])
        (rest.dropWhile pySpace) then []
    else c :: specRemStrip rest

def specNormalize (s : String) : String :=
  ⟨pyStrip (collapseWs ((specRemStrip (bracketDrop (featDrop (pyLower s.data)))).filter
    specKeep))⟩

/-- Counterexample for claim C7: neither normalizer in the source performs
exactly the spec's step list.  `matcher.normalize_string` does not delete
square-bracketed clauses and removes hyphen/colon/ampersand, and
`ytm._normalize` does not strip "- remastered…" suffixes; each disagrees
with the spec pipeline on a concrete input. -/
theorem C7_normalize_counterexample :
    normalizeString "[x]" = "x" ∧ specNormalize "[x]" = "" ∧
    normalizeString "[x]" ≠ specNormalize "[x]" ∧
    normalizeString "a-b" = "ab" ∧ specNormalize "a-b" = "a-b" ∧
    ytmNormalize "x - remastered 2011" = "x - remastered 2011" ∧
    specNormalize "x - remastered 2011" = "x" ∧
    ytmNormalize "x - remastered 2011" ≠ specNormalize "x - remastered 2011" := by
  refine ⟨?_, ?_, ?_, ?_, ?_, ?_, ?_, ?_⟩ <;> decide

/-- Claim C7 (amended): both normalizers are total deterministic functions
yielding `""` on empty or absent input.  `matcher.normalize_string`
lowercases, deletes parenthesized "feat." clauses, strips "- remastered…"
tails, removes punctuation except underscore (hyphen, colon and ampersand
included), collapses whitespace and trims — it does not delete
square-bracketed clauses.  `ytm._normalize` lowercases, deletes
parenthesized "feat." clauses and square-bracketed clauses, replaces
characters outside letters/digits/whitespace/hyphen/colon/ampersand by a
space, collapses whitespace and trims — it does not strip "- remastered…"
suffixes. -/
theorem C7_normalize_amended :
    normalizeStringOpt none = "" ∧
    normalizeString "" = "" ∧
    ytmNormalize "" = "" ∧
    normalizeString "A (feat. B) - Remastered 2011" = "a" ∧
    normalizeString "[x] a-b:c&d_e" = "x abcd_e" ∧
    ytmNormalize "[x] (feat. q) a-b:c&d_e" = "a-b:c&d e" ∧
    ytmNormalize "x - remastered 2011" = "x - remastered 2011" ∧
    normalizeString " Test  String! " = "test string" := by
  refine ⟨?_, ?_, ?_, ?_, ?_, ?_, ?_, ?_⟩ <;> decide

/-! ### Claim C5: `ytm._search_track_exactish` candidate heuristic -/

/-- The fields of a Spotify track dict used by `_search_track_exactish`. -/
structure YTrack where
  name : String
  artists : List String
deriving DecidableEq, Repr

/-- A raw YTM search result (`title`, artist names, `videoId`). -/
structure YCand where
  title : String
  artists : List String
  videoId : Option String
deriving DecidableEq, Repr

/-- `q_title = _normalize(str(track.get("name") or ""))`. -/
def qTitleOf (t : YTrack) : String := ytmNormalize t.name

/-- `artist0`: first artist name, or `""` when the artist list is empty. -/
def artist0Of (t : YTrack) : String := t.artists.head?.getD ""

/-- `q_artist = _normalize(str(artist0))`. -/
def qArtistOf (t : YTrack) : String := ytmNormalize (artist0Of t)

/-- The loop condition in `_search_track_exactish` (backend/ytm.py line 219):
the normalized source title occurs inside the normalized candidate title,
and the lowercased space-joined candidate artist names (`artistsStrL`)
contain, or are contained in, the normalized first source artist. -/
def artistsStrL (r : YCand) : List Char :=
  pyLower (List.intercalate [' '] (r.artists.map String.data))

def candPasses (t : YTrack) (r : YCand) : Bool :=
  subSeq (qTitleOf t).data (ytmNormalize r.title).data &&
    (subSeq (qArtistOf t).data (artistsStrL r) ||
     subSeq (artistsStrL r) (qArtistOf t).data)

/-- The `for r in candidates[:7]` loop: first passing candidate's
`videoId` (which may itself be absent). -/
def stGo (t : YTrack) : List YCand → Option (Option String)
  | [] => none
  | r :: rest => if candPasses t r then some r.videoId else stGo t rest

/-- `ytm._search_track_exactish` (backend/ytm.py lines 202-224) given the
search results: first passing candidate of the first seven, else the first
candidate's `videoId`, else `none`. -/
def searchTrackExactish (t : YTrack) (cands : List YCand) : Option String :=
  match stGo t (cands.take 7) with
  | some r => r
  | none =>
    match cands.head? with
    | some r0 => r0.videoId
    | none => none

/-- Modelled from the spec (section 4.6 heuristic wording): retain the first
candidate whose normalized title is contained in the normalized source
title (the opposite containment direction) with the same artist condition;
fall back to the first candidate; `none` when empty. -/
def specCandPasses (t : YTrack) (r : YCand) : Bool :=
  subSeq (ytmNormalize r.title).data (qTitleOf t).data &&
    (subSeq (qArtistOf t).data (artistsStrL r) ||
     subSeq (artistsStrL r) (qArtistOf t).data)

def specSelectYtm (t : YTrack) (cands : List YCand) : Option String :=
  match (cands.take 7).find? (specCandPasses t) with
  | some r => r.videoId
  | none =>
    match cands.head? with
    | some r0 => r0.videoId
    | none => none

lemma stGo_eq_find (t : YTrack) :
    ∀ l : List YCand, stGo t l = (l.find? (candPasses t)).map YCand.videoId := by
  intro l
  induction l with
  | nil => rfl
  | cons r rest ih =>
    simp only [stGo, List.find?]
    by_cases h : candPasses t r
    · rw [if_pos h, h]; rfl
    · rw [if_neg h]
      rw [Bool.not_eq_true] at h
      rw [h]
      exact ih

/-- Counterexample for claim C5: the claim (and spec section 4.6) state the
containment as "candidate title contained in the source title"; the code
checks the opposite direction (`q_title in title`).  With source title
"ab" and candidates titled "a" and "ab plus" the spec's reading retains
the first candidate, the code retains the second. -/
theorem C5_search_heuristic_counterexample :
    searchTrackExactish ⟨"ab", ["x"]⟩
      [⟨"a", ["x"], some "v1"⟩, ⟨"ab plus", ["x"], some "v2"⟩] = some "v2" ∧
    specSelectYtm ⟨"ab", ["x"]⟩
      [⟨"a", ["x"], some "v1"⟩, ⟨"ab plus", ["x"], some "v2"⟩] = some "v1" ∧
    (some "v2" : Option String) ≠ some "v1" := by
  refine ⟨?_, ?_, ?_⟩ <;> decide

/-- Claim C5 (amended): the searcher examines the first seven candidates
and retains the first whose normalized candidate title CONTAINS the
normalized source title and whose lowercased concatenated artist string
contains or is contained in the normalized first source artist; if none
passes it falls back to the first candidate's id; on an empty candidate
list it returns none.  (There is no "take first 5 after filter" step in
the code.) -/
theorem C5_search_heuristic :
    ∀ (t : YTrack) (cands : List YCand),
      searchTrackExactish t cands =
        match (cands.take 7).find? (candPasses t) with
        | some r => r.videoId
        | none =>
          match cands.head? with
          | some r0 => r0.videoId
          | none => none := by
  intro t cands
  rw [searchTrackExactish, stGo_eq_find]
  cases (cands.take 7).find? (candPasses t) with
  | none => rfl
  | some r => rfl

/-! ### Claim C4: `ytm.get_video_ids` (parallel searcher)

The thread pool is modelled by an arbitrary completion order `order` (the
order in which `as_completed` yields the index-tagged futures); each task's
outcome is an oracle `res` giving either an exception (`Except.error`) or
the value returned by `_search_track_exactish`.  Tracks are represented by
their `t_label` strings, the only use the loop makes of them. -/

/-- Result of `task(i, t)`: the inner try/except maps an exception to
`(i, None)`. -/
def taskResult (res : ℕ → Except Unit (Option String)) (i : ℕ) : Option String :=
  match res i with
  | Except.error _ => none
  | Except.ok v => v

structure FillSt where
  arr : List (Option String)
  mc : ℕ
  ml : List String
deriving DecidableEq, Repr

/-- The `for fut in as_completed(futures)` loop (backend/ytm.py 242-248):
a truthy vid fills slot `i`; otherwise the missed report grows. -/
def fillGo (tracks : List String) (res : ℕ → Except Unit (Option String)) :
    List ℕ → FillSt → FillSt
  | [], st => st
  | i :: rest, st =>
    if truthyOpt (taskResult res i) then
      fillGo tracks res rest ⟨st.arr.set i (taskResult res i), st.mc, st.ml⟩
    else
      fillGo tracks res rest ⟨st.arr, st.mc + 1, st.ml ++ [tracks.getD i ""]⟩

/-- `ytm.get_video_ids` (backend/ytm.py lines 227-257). -/
def getVideoIds (tracks : List String) (res : ℕ → Except Unit (Option String))
    (order : List ℕ) : Except Unit FillSt :=
  let st := fillGo tracks res order ⟨List.replicate tracks.length none, 0, []⟩
  if (st.arr.filter truthyOpt) = [] ∧ tracks ≠ [] then Except.error ()
  else Except.ok st

lemma getD_set_self : ∀ (l : List (Option String)) (i : ℕ) (v : Option String),
    i < l.length → (l.set i v).getD i none = v := by
  intro l
  induction l with
  | nil => intro i v h; simp at h
  | cons x xs ih =>
    intro i v h
    cases i with
    | zero => rfl
    | succ n =>
      simp only [List.set, List.getD, List.getElem?_cons_succ]
      have := ih n v (by simp at h; omega)
      simpa [List.getD] using this

lemma getD_set_other : ∀ (l : List (Option String)) (i j : ℕ) (v : Option String),
    i ≠ j → (l.set j v).getD i none = l.getD i none := by
  intro l
  induction l with
  | nil => intro i j v _; rfl
  | cons x xs ih =>
    intro i j v hne
    cases j with
    | zero =>
      cases i with
      | zero => exact absurd rfl hne
      | succ n => rfl
    | succ m =>
      cases i with
      | zero => rfl
      | succ n =>
        simp only [List.set, List.getD, List.getElem?_cons_succ]
        have := ih n m v (by omega)
        simpa [List.getD] using this

lemma fillGo_arr_length (tracks : List String) (res : ℕ → Except Unit (Option String)) :
    ∀ (order : List ℕ) (st : FillSt),
      (fillGo tracks res order st).arr.length = st.arr.length := by
  intro order
  induction order with
  | nil => intro st; rfl
  | cons i rest ih =>
    intro st
    simp only [fillGo]
    by_cases h : truthyOpt (taskResult res i)
    · rw [if_pos h, ih]; simp
    · rw [if_neg h, ih]

lemma fillGo_getD (tracks : List String) (res : ℕ → Except Unit (Option String)) :
    ∀ (order : List ℕ) (st : FillSt) (i : ℕ), i < st.arr.length →
      (fillGo tracks res order st).arr.getD i none =
        (if i ∈ order ∧ truthyOpt (taskResult res i) then taskResult res i
         else st.arr.getD i none) := by
  intro order
  induction order with
  | nil =>
    intro st i _
    simp [fillGo]
  | cons j rest ih =>
    intro st i hi
    simp only [fillGo]
    by_cases hj : truthyOpt (taskResult res j)
    · rw [if_pos hj]
      rw [ih _ i (by simp; omega)]
      by_cases hir : i ∈ rest ∧ truthyOpt (taskResult res i)
      · rw [if_pos hir, if_pos ⟨List.mem_cons_of_mem _ hir.1, hir.2⟩]
      · rw [if_neg hir]
        by_cases hij : i = j
        · subst hij
          rw [getD_set_self _ _ _ hi, if_pos ⟨List.mem_cons_self _ _, hj⟩]
        · rw [getD_set_other _ _ _ _ hij]
          by_cases hic : i ∈ j :: rest ∧ truthyOpt (taskResult res i)
          · exfalso
            rcases List.mem_cons.mp hic.1 with h1 | h1
            · exact hij h1
            · exact hir ⟨h1, hic.2⟩
          · rw [if_neg hic]
    · rw [if_neg hj]
      rw [ih _ i (by simpa using hi)]
      by_cases hir : i ∈ rest ∧ truthyOpt (taskResult res i)
      · rw [if_pos hir, if_pos ⟨List.mem_cons_of_mem _ hir.1, hir.2⟩]
      · rw [if_neg hir]
        by_cases hic : i ∈ j :: rest ∧ truthyOpt (taskResult res i)
        · exfalso
          rcases List.mem_cons.mp hic.1 with h1 | h1
          · subst h1; exact hj hic.2
          · exact hir ⟨h1, hic.2⟩
        · rw [if_neg hic]

lemma getD_replicate_none : ∀ (n i : ℕ), (List.replicate n (none : Option String)).getD i none = none := by
  intro n
  induction n with
  | zero => intro i; rfl
  | succ m ih =>
    intro i
    cases i with
    | zero => rfl
    | succ k =>
      simp only [List.replicate, List.getD, List.getElem?_cons_succ]
      simp [List.getD]

/-- Counterexample for claim C4: with a single input track whose search
raises, the error becomes `none` at index 0, `found` is empty, and
`get_video_ids` raises `YTMError` — the whole searcher fails, contrary to
the claim's "an error ... never fails the whole searcher". -/
theorem C4_searcher_counterexample :
    getVideoIds ["t"] (fun _ => Except.error ()) [0] = Except.error () := by
  rfl

/-- Claim C4 (amended): for every input list and every completion order,
when at least one search result is truthy (or the input is empty) the
searcher returns a list of length N whose slot `i` holds the result of
search `i` — truthy results fill their slot, errors and falsy results
leave `none` — independent of the completion order; when N > 0 and no
search result is truthy, the searcher fails as a whole with `YTMError`. -/
theorem C4_searcher_alignment (tracks : List String)
    (res : ℕ → Except Unit (Option String)) (order : List ℕ)
    (hperm : order.Perm (List.range tracks.length)) :
    (tracks = [] →
      getVideoIds tracks res order = Except.ok ⟨[], 0, []⟩) ∧
    ((∃ i, i < tracks.length ∧ truthyOpt (taskResult res i)) →
      ∃ st : FillSt, getVideoIds tracks res order = Except.ok st ∧
        st.arr.length = tracks.length ∧
        ∀ i, i < tracks.length →
          st.arr.getD i none =
            (if truthyOpt (taskResult res i) then taskResult res i else none)) ∧
    ((tracks ≠ [] ∧ ∀ i, i < tracks.length → ¬ truthyOpt (taskResult res i)) →
      getVideoIds tracks res order = Except.error ()) := by
  have hmem : ∀ i, i ∈ order ↔ i < tracks.length := by
    intro i
    rw [hperm.mem_iff, List.mem_range]
  have hlen : (fillGo tracks res order
      ⟨List.replicate tracks.length none, 0, []⟩).arr.length = tracks.length := by
    rw [fillGo_arr_length]; simp
  have hgetD : ∀ i, i < tracks.length →
      (fillGo tracks res order ⟨List.replicate tracks.length none, 0, []⟩).arr.getD i none =
        (if truthyOpt (taskResult res i) then taskResult res i else none) := by
    intro i hi
    rw [fillGo_getD tracks res order _ i (by simpa using hi)]
    by_cases ht : truthyOpt (taskResult res i)
    · rw [if_pos ⟨(hmem i).mpr hi, ht⟩, if_pos ht]
    · rw [if_neg (fun hc => ht hc.2), if_neg ht]
      exact getD_replicate_none _ _
  refine ⟨?_, ?_, ?_⟩
  · intro h
    subst h
    have : order = [] := List.Perm.eq_nil (by simpa using hperm)
    subst this
    rfl
  · intro ⟨i, hi, hti⟩
    refine ⟨_, ?_, hlen, hgetD⟩
    rw [getVideoIds]
    rw [if_neg ?_]
    intro ⟨hfil, _⟩
    have hslot : (fillGo tracks res order
        ⟨List.replicate tracks.length none, 0, []⟩).arr.getD i none = taskResult res i := by
      rw [hgetD i hi, if_pos hti]
    have hmemarr : taskResult res i ∈ (fillGo tracks res order
        ⟨List.replicate tracks.length none, 0, []⟩).arr := by
      have hlt : i < (fillGo tracks res order
          ⟨List.replicate tracks.length none, 0, []⟩).arr.length := by
        rw [hlen]; exact hi
      rw [List.getD_eq_getElem?_getD, List.getElem?_eq_getElem hlt] at hslot
      simp only [Option.getD_some] at hslot
      rw [← hslot]
      exact List.getElem_mem hlt
    have := List.filter_eq_nil_iff.mp hfil _ hmemarr
    exact this hti
  · intro ⟨hne, hall⟩
    rw [getVideoIds]
    rw [if_pos ?_]
    refine ⟨?_, hne⟩
    rw [List.filter_eq_nil_iff]
    intro v hv
    obtain ⟨j, hj, hjv⟩ := List.mem_iff_getElem.mp hv
    have hjlt : j < tracks.length := by rw [← hlen]; exact hj
    have := hgetD j hjlt
    rw [List.getD_eq_getElem?_getD, List.getElem?_eq_getElem hj] at this
    simp only [Option.getD_some] at this
    rw [hjv] at this
    rw [this]
    by_cases ht : truthyOpt (taskResult res j)
    · exact absurd ht (hall j hjlt)
    · rw [if_neg ht]; simp [truthyOpt]

/-- Witness for C4 at a concrete input: one track, a successful search. -/
theorem C4_searcher_alignment_witness :
    ∃ st : FillSt,
      getVideoIds ["a"] (fun _ => Except.ok (some "v")) [0] = Except.ok st ∧
      st.arr.length = (["a"] : List String).length ∧
      ∀ i, i < (["a"] : List String).length →
        st.arr.getD i none =
          (if truthyOpt (taskResult (fun _ => Except.ok (some "v")) i) then
            taskResult (fun _ => Except.ok (some "v")) i else none) :=
  (C4_searcher_alignment ["a"] (fun _ => Except.ok (some "v")) [0]
    (by decide)).2.1 ⟨0, by decide, by decide⟩

/-! ### Claim C1/C8: `ytm._add_tracks_resilient` and the finalize report

The adapter's `add_playlist_items` outcome for the n-th call of a run is an
oracle `resp : ℕ → Bool` (`true` = the call succeeded; `false` covers a
non-success status, a 409 `YTMusicServerError`, and any other exception —
the code treats all three the same way).  The state tracks the existing set
`E`, the permanently failed ids, every id passed in a successful call
(`inserted`), and the call counter. -/

structure WSt where
  existing : List String
  failed : List String
  inserted : List String
  k : ℕ
deriving DecidableEq, Repr

/-- The filter of step 3: drop empty ids and ids already in `E`. -/
def chunkFilter (existing : List String) (chunk : List String) : List String :=
  chunk.filter (fun v => v ≠ "" && !(existing.contains v))

/-- `add_chunk` (backend/ytm.py lines 275-316): try the filtered chunk
once; on success add to `E`; a failing singleton becomes permanently
failed; otherwise binary-split and retry both halves in order.  The fuel
argument only bounds the recursion (every recursive call is on a strictly
shorter list, so `addChunk` passes the chunk length and the `0` case is
never reached); it keeps the definition structurally recursive. -/
def addChunkF (resp : ℕ → Bool) : ℕ → List String → WSt → WSt
  | 0, _, st => st
  | fuel + 1, chunk, st =>
    if chunkFilter st.existing chunk = [] then st
    else if resp st.k then
      ⟨st.existing ++ chunkFilter st.existing chunk, st.failed,
        st.inserted ++ chunkFilter st.existing chunk, st.k + 1⟩
    else if (chunkFilter st.existing chunk).length = 1 then
      ⟨st.existing, st.failed ++ chunkFilter st.existing chunk, st.inserted, st.k + 1⟩
    else
      addChunkF resp fuel
        ((chunkFilter st.existing chunk).drop ((chunkFilter st.existing chunk).length / 2))
        (addChunkF resp fuel
          ((chunkFilter st.existing chunk).take ((chunkFilter st.existing chunk).length / 2))
          ⟨st.existing, st.failed, st.inserted, st.k + 1⟩)

def addChunk (resp : ℕ → Bool) (chunk : List String) (st : WSt) : WSt :=
  addChunkF resp chunk.length chunk st

/-- Contiguous chunks of size `k + 1` (`range(0, total, B)` slicing); fuel
as above. -/
def chunkedF (k : ℕ) : ℕ → List String → List (List String)
  | 0, _ => []
  | fuel + 1, l =>
    if l = [] then [] else l.take (k + 1) :: chunkedF k fuel (l.drop (k + 1))

def chunked (k : ℕ) (l : List String) : List (List String) := chunkedF k l.length l

/-- `ytm._add_tracks_resilient` (backend/ytm.py lines 268-328) with the
initial existing set `E0` already fetched (`_existing_video_ids`; an
unreachable playlist yields `E0 = []`): chunks of `YTM_BATCH_SIZE = 60`. -/
def addTracksResilient (resp : ℕ → Bool) (E0 : List String)
    (ids : List String) : WSt :=
  (chunked 59 ids).foldl (fun st c => addChunk resp c st) ⟨E0, [], [], 0⟩

/-- The de-duplication loop of `create_ytm_playlist` (backend/ytm.py lines
357-370): keep the first occurrence of each truthy video id. -/
def dedupGo (seen : List String) : List (Option String) → List String
  | [] => []
  | v :: rest =>
    match v with
    | none => dedupGo seen rest
    | some s =>
      if s = "" then dedupGo seen rest
      else if seen.contains s then dedupGo seen rest
      else s :: dedupGo (s :: seen) rest

def dedupFirst (vids : List (Option String)) : List String := dedupGo [] vids

/-- The reported insert accounting of `create_ytm_playlist` (backend/ytm.py
lines 400-413): `failed_inserts` from the resilient writer on the deduped
ids, and `inserted_count = len(unique_video_ids) - len(failed_inserts)`. -/
def createYtmReport (vids : List (Option String)) (E0 : List String)
    (resp : ℕ → Bool) : ℕ × List String :=
  ((dedupFirst vids).length - (addTracksResilient resp E0 (dedupFirst vids)).failed.length,
   (addTracksResilient resp E0 (dedupFirst vids)).failed)

lemma chunkedF_flatten (k : ℕ) :
    ∀ (fuel : ℕ) (l : List String), l.length ≤ fuel →
      (chunkedF k fuel l).flatten = l := by
  intro fuel
  induction fuel with
  | zero =>
    intro l hl
    have : l = [] := List.eq_nil_of_length_eq_zero (by omega)
    subst this; rfl
  | succ n ih =>
    intro l hl
    rw [chunkedF]
    by_cases h : l = []
    · rw [if_pos h, h]; rfl
    · rw [if_neg h]
      simp only [List.flatten_cons]
      rw [ih (l.drop (k + 1)) (by simp [List.length_drop]; omega)]
      exact List.take_append_drop _ _

lemma chunked_flatten (k : ℕ) (l : List String) : (chunked k l).flatten = l :=
  chunkedF_flatten k l.length l (le_refl _)

lemma addChunkF_spec (resp : ℕ → Bool) :
    ∀ (fuel : ℕ) (chunk : List String) (st : WSt), chunk.length ≤ fuel →
      (∀ v ∈ st.existing, v ∈ (addChunkF resp fuel chunk st).existing) ∧
      (∃ nf, (addChunkF resp fuel chunk st).failed = st.failed ++ nf ∧
        nf.Sublist chunk) ∧
      (∀ v ∈ chunk, v ≠ "" →
        v ∈ (addChunkF resp fuel chunk st).existing ∨
        v ∈ (addChunkF resp fuel chunk st).failed) := by
  intro fuel
  induction fuel with
  | zero =>
    intro chunk st hle
    have : chunk = [] := List.eq_nil_of_length_eq_zero (by omega)
    subst this
    exact ⟨fun v hv => hv, ⟨[], by simp [addChunkF], List.nil_sublist _⟩, by simp⟩
  | succ n ih =>
    intro chunk st hle
    rw [addChunkF]
    by_cases hf : chunkFilter st.existing chunk = []
    · rw [if_pos hf]
      refine ⟨fun v hv => hv, ⟨[], by simp, List.nil_sublist _⟩, ?_⟩
      intro v hv hne
      left
      have := List.filter_eq_nil_iff.mp hf v hv
      simp only [chunkFilter, Bool.and_eq_true, Bool.not_eq_true',
        decide_eq_true_eq] at this
      by_cases hmem : st.existing.contains v
      · exact List.mem_of_elem_eq_true hmem
      · exfalso
        apply this
        constructor
        · simpa using hne
        · simpa using hmem
    · rw [if_neg hf]
      by_cases hok : resp st.k
      · rw [if_pos hok]
        refine ⟨fun v hv => List.mem_append_left _ hv,
          ⟨[], by simp, List.nil_sublist _⟩, ?_⟩
        intro v hv hne
        left
        by_cases hmem : v ∈ st.existing
        · exact List.mem_append_left _ hmem
        · apply List.mem_append_right
          rw [chunkFilter, List.mem_filter]
          refine ⟨hv, ?_⟩
          simp only [Bool.and_eq_true, Bool.not_eq_true', decide_eq_true_eq]
          constructor
          · simpa using hne
          · simpa using (fun hc => hmem (List.mem_of_elem_eq_true hc))
      · rw [if_neg hok]
        by_cases h1 : (chunkFilter st.existing chunk).length = 1
        · rw [if_pos h1]
          refine ⟨fun v hv => hv,
            ⟨chunkFilter st.existing chunk, rfl,
              List.Sublist.trans (List.filter_sublist _) (List.Sublist.refl _)⟩, ?_⟩
          intro v hv hne
          by_cases hmem : v ∈ st.existing
          · left; exact hmem
          · right
            apply List.mem_append_right
            rw [chunkFilter, List.mem_filter]
            refine ⟨hv, ?_⟩
            simp only [Bool.and_eq_true, Bool.not_eq_true', decide_eq_true_eq]
            constructor
            · simpa using hne
            · simpa using (fun hc => hmem (List.mem_of_elem_eq_true hc))
        · rw [if_neg h1]
          have hlen2 : 2 ≤ (chunkFilter st.existing chunk).length := by
            have hne0 : (chunkFilter st.existing chunk).length ≠ 0 := by
              intro hc
              exact hf (List.eq_nil_of_length_eq_zero hc)
            omega
          have hflen : (chunkFilter st.existing chunk).length ≤ chunk.length :=
            List.length_filter_le _ _
          have htake : ((chunkFilter st.existing chunk).take
              ((chunkFilter st.existing chunk).length / 2)).length ≤ n := by
            simp only [List.length_take]
            omega
          have hdrop : ((chunkFilter st.existing chunk).drop
              ((chunkFilter st.existing chunk).length / 2)).length ≤ n := by
            simp only [List.length_drop]
            omega
          obtain ⟨ih1a, ⟨nf1, hnf1, hnf1s⟩, ih1c⟩ :=
            ih _ ⟨st.existing, st.failed, st.inserted, st.k + 1⟩ htake
          obtain ⟨ih2a, ⟨nf2, hnf2, hnf2s⟩, ih2c⟩ :=
            ih _ (addChunkF resp n
              ((chunkFilter st.existing chunk).take
                ((chunkFilter st.existing chunk).length / 2))
              ⟨st.existing, st.failed, st.inserted, st.k + 1⟩) hdrop
          refine ⟨?_, ?_, ?_⟩
          · intro v hv
            exact ih2a v (ih1a v hv)
          · refine ⟨nf1 ++ nf2, ?_, ?_⟩
            · rw [hnf2, hnf1, List.append_assoc]
            · have := List.Sublist.append hnf1s hnf2s
              rw [List.take_append_drop] at this
              exact List.Sublist.trans this (List.filter_sublist _)
          · intro v hv hne
            by_cases hmem : v ∈ st.existing
            · left; exact ih2a v (ih1a v hmem)
            · have hvf : v ∈ chunkFilter st.existing chunk := by
                rw [chunkFilter, List.mem_filter]
                refine ⟨hv, ?_⟩
                simp only [Bool.and_eq_true, Bool.not_eq_true', decide_eq_true_eq]
                constructor
                · simpa using hne
                · simpa using (fun hc => hmem (List.mem_of_elem_eq_true hc))
              rw [← List.take_append_drop
                ((chunkFilter st.existing chunk).length / 2)
                (chunkFilter st.existing chunk)] at hvf
              rcases List.mem_append.mp hvf with hvt | hvd
              · rcases ih1c v hvt hne with hex | hfl
                · left; exact ih2a v hex
                · right
                  rw [hnf2]
                  exact List.mem_append_left _ hfl
              · exact ih2c v hvd hne

lemma foldAdd_spec (resp : ℕ → Bool) :
    ∀ (chunks : List (List String)) (st : WSt),
      (∀ v ∈ st.existing,
        v ∈ (chunks.foldl (fun s c => addChunk resp c s) st).existing) ∧
      (∃ nf, (chunks.foldl (fun s c => addChunk resp c s) st).failed
          = st.failed ++ nf ∧ nf.Sublist chunks.flatten) ∧
      (∀ v ∈ chunks.flatten, v ≠ "" →
        v ∈ (chunks.foldl (fun s c => addChunk resp c s) st).existing ∨
        v ∈ (chunks.foldl (fun s c => addChunk resp c s) st).failed) := by
  intro chunks
  induction chunks with
  | nil =>
    intro st
    exact ⟨fun v hv => hv, ⟨[], by simp, List.nil_sublist _⟩, by simp⟩
  | cons c cs ih =>
    intro st
    simp only [List.foldl_cons, List.flatten_cons]
    obtain ⟨ha1, ⟨nfc, hnfc, hnfcs⟩, ha3⟩ :=
      addChunkF_spec resp c.length c st (le_refl _)
    obtain ⟨ih1, ⟨nfr, hnfr, hnfrs⟩, ih3⟩ := ih (addChunk resp c st)
    refine ⟨?_, ?_, ?_⟩
    · intro v hv
      exact ih1 v (ha1 v hv)
    · refine ⟨nfc ++ nfr, ?_, List.Sublist.append hnfcs hnfrs⟩
      rw [hnfr]
      rw [show (addChunk resp c st).failed = st.failed ++ nfc from hnfc]
      rw [List.append_assoc]
    · intro v hv hne
      rcases List.mem_append.mp hv with hvc | hvr
      · rcases ha3 v hvc hne with hex | hfl
        · left; exact ih1 v hex
        · right
          rw [hnfr]
          exact List.mem_append_left _ hfl
      · exact ih3 v hvr hne

lemma dedupGo_ne : ∀ (l : List (Option String)) (seen : List String)
    (v : String), v ∈ dedupGo seen l → v ≠ "" := by
  intro l
  induction l with
  | nil => intro seen v hv; cases hv
  | cons o rest ih =>
    intro seen v hv
    cases o with
    | none => exact ih seen v hv
    | some s =>
      simp only [dedupGo] at hv
      by_cases hs : s = ""
      · rw [if_pos hs] at hv
        exact ih seen v hv
      · rw [if_neg hs] at hv
        by_cases hc : seen.contains s
        · rw [if_pos hc] at hv
          exact ih seen v hv
        · rw [if_neg hc] at hv
          rcases List.mem_cons.mp hv with h1 | h1
          · rw [h1]; exact hs
          · exact ih _ v h1

/-- Counterexample for claim C1: an input id already present in the target
playlist is filtered out — it is neither inserted nor failed — but the
reported `inserted_count = |unique| − |failed|` still counts it.  With
input `["a"]` and `existing_items = {"a"}` the code reports
`inserted_count = 1`, `failed_ids = []`, while the claim's equation
demands `inserted_count + |failed_ids| = 1 − 1 = 0`. -/
theorem C1_writer_counterexample :
    (createYtmReport [some "a"] ["a"] (fun _ => true)).1 +
      (createYtmReport [some "a"] ["a"] (fun _ => true)).2.length = 1 ∧
    (dedupFirst [some "a"]).length -
      ((dedupFirst [some "a"]).filter
        (fun v => (["a"] : List String).contains v)).length = 0 ∧
    (1 : ℕ) ≠ 0 := by
  refine ⟨?_, ?_, ?_⟩ <;> decide

/-- Claim C1 (amended): for every finalize run of the resilient writer,
`inserted_count + |failed_ids| = |unique input ids|` (the code computes
`inserted_count = |unique| − |failed|`, counting ids that were already in
`existing_items` as inserted); every unique input id ends the run in `E`
or in `failed_ids`; and the claim's original equation
`inserted_count + |failed_ids| = |unique| − |ids already in existing_items|`
holds exactly when no unique input id was already present. -/
theorem C1_writer_accounting (vids : List (Option String)) (E0 : List String)
    (resp : ℕ → Bool) :
    ((createYtmReport vids E0 resp).1 + (createYtmReport vids E0 resp).2.length
      = (dedupFirst vids).length) ∧
    (∀ v ∈ dedupFirst vids,
      v ∈ (addTracksResilient resp E0 (dedupFirst vids)).existing ∨
      v ∈ (createYtmReport vids E0 resp).2) ∧
    ((∀ v ∈ dedupFirst vids, ¬ v ∈ E0) →
      (createYtmReport vids E0 resp).1 + (createYtmReport vids E0 resp).2.length
        = (dedupFirst vids).length
          - ((dedupFirst vids).filter (fun v => E0.contains v)).length) := by
  obtain ⟨hmono, ⟨nf, hnf, hnfs⟩, hcomplete⟩ :=
    foldAdd_spec resp (chunked 59 (dedupFirst vids)) ⟨E0, [], [], 0⟩
  have hfail : (addTracksResilient resp E0 (dedupFirst vids)).failed = nf := by
    rw [addTracksResilient, hnf]
    simp
  have hnfsub : nf.Sublist (dedupFirst vids) := by
    rw [chunked_flatten] at hnfs
    exact hnfs
  have hfle : (addTracksResilient resp E0 (dedupFirst vids)).failed.length
      ≤ (dedupFirst vids).length := by
    rw [hfail]
    exact List.Sublist.length_le hnfsub
  have h1 : (createYtmReport vids E0 resp).1 +
      (createYtmReport vids E0 resp).2.length = (dedupFirst vids).length := by
    simp only [createYtmReport]
    omega
  refine ⟨h1, ?_, ?_⟩
  · intro v hv
    have := hcomplete v (by rw [chunked_flatten]; exact hv) (dedupGo_ne vids [] v hv)
    simpa [createYtmReport, addTracksResilient] using this
  · intro hnone
    have hfilnil : (dedupFirst vids).filter (fun v => E0.contains v) = [] := by
      rw [List.filter_eq_nil_iff]
      intro v hv
      intro hc
      exact hnone v hv (List.mem_of_elem_eq_true hc)
    rw [hfilnil]
    simpa using h1

/-- Witness for C1 at a concrete input with an empty initial playlist. -/
theorem C1_writer_accounting_witness :
    (∀ v ∈ dedupFirst [some "a"], ¬ v ∈ ([] : List String)) ∧
    ((createYtmReport [some "a"] [] (fun _ => true)).1 +
        (createYtmReport [some "a"] [] (fun _ => true)).2.length
      = (dedupFirst [some "a"]).length
        - ((dedupFirst [some "a"]).filter
            (fun v => ([] : List String).contains v)).length) :=
  ⟨by decide,
    (C1_writer_accounting [some "a"] [] (fun _ => true)).2.2 (by decide)⟩

/-! ### The job store and the worker (backend/models.py, worker.py,
routers/imports.py)

`models.Provider` has exactly the members SPOTIFY, TIDAL and YTM — there is
no QOBUZ member, although worker.py compares against `Provider.QOBUZ`;
evaluating that attribute raises `AttributeError`, which the worker's
`except Exception` handler converts into a FAILED job. -/

inductive Provider where
  | SPOTIFY
  | TIDAL
  | YTM
deriving DecidableEq, Repr

inductive JobStatus where
  | QUEUED
  | RUNNING
  | WAITING_REVIEW
  | IMPORTING
  | DONE
  | FAILED
deriving DecidableEq, Repr

/-- `match_data` as the review code reads it: the `id` key plus the rest of
the dict (opaque). -/
structure MData where
  id : Option String
  rest : String
deriving DecidableEq, Repr

/-- `models.ImportItem` (fields used by the worker and review code). -/
structure RItem where
  id : ℕ
  job_id : ℕ
  status : ItemStatus
  selected_match_id : Option String
  match_data : Option MData
deriving DecidableEq, Repr

/-- `models.ImportJob` (fields used by the worker). -/
structure Job where
  id : ℕ
  user_id : ℕ
  target_provider : Provider
  status : JobStatus
  target_playlist_id : Option String
  error_message : Option String
  source_playlist_name : Option String
deriving DecidableEq, Repr

/-- `models.Connection` with the credential keys the worker reads. -/
structure Conn where
  user_id : ℕ
  provider : Provider
  access_token : Option String
  refresh_token : Option String
deriving DecidableEq, Repr

structure Store where
  jobs : List Job
  items : List RItem
  conns : List Conn
deriving DecidableEq, Repr

/-- `session.get(ImportJob, job_id)`. -/
def findJob (st : Store) (jid : ℕ) : Option Job :=
  st.jobs.find? (fun j => j.id == jid)

/-- `select(Connection).where(user_id == .., provider == ..).first()`. -/
def findConn (st : Store) (uid : ℕ) (p : Provider) : Option Conn :=
  st.conns.find? (fun c => c.user_id == uid && c.provider == p)

/-- `session.add(job); session.commit()` for a mutated job row. -/
def updateJob (st : Store) (jid : ℕ) (f : Job → Job) : Store :=
  { st with jobs := st.jobs.map (fun j => if j.id == jid then f j else j) }

/-- The `except Exception` handler of both worker functions: persist
FAILED and the stringified error. -/
def failJob (st : Store) (jid : ℕ) (msg : String) : Store :=
  updateJob st jid
    (fun j => { j with status := JobStatus.FAILED, error_message := some msg })

/-- `worker.process_import_job` (backend/worker.py lines 123-267).  A
missing job returns; otherwise the status is set to RUNNING with no check
of the previous state, the Spotify connection and credentials are read,
and then line 155 calls
`SpotifyClient(access_token=.., refresh_token=.., on_token_refresh=..)`.
`SpotifyClient.__init__` (backend/spotify.py line 41) accepts only
`access_token` and `refresh_token`, so this call raises `TypeError`;
the handler turns every such run into FAILED.  Everything after line 155
is unreachable. -/
def processImportJob (st : Store) (jid : ℕ) : Store :=
  match findJob st jid with
  | none => st
  | some job =>
    let st1 := updateJob st jid (fun j => { j with status := JobStatus.RUNNING })
    match findConn st1 job.user_id Provider.SPOTIFY with
    | none => failJob st1 jid "Spotify connection not found for user."
    | some conn =>
      if ¬ truthyOpt conn.access_token ∧ ¬ truthyOpt conn.refresh_token then
        failJob st1 jid "Spotify credentials are missing access and refresh tokens."
      else
        failJob st1 jid
          "TypeError: SpotifyClient.__init__ got an unexpected keyword argument on_token_refresh"

/-- Observable calls made to the target provider during finalize. -/
inductive TEff where
  | userIdCall
  | create (name : String)
  | add (pid : String) (chunk : List String)
deriving DecidableEq, Repr

/-- Oracle for the TIDAL client calls made by finalize. -/
structure FinOracle where
  tidalUserId : Except String String
  tidalCreate : Except String String
  tidalAdd : ℕ → Except String Unit

/-- `TidalClient.add_tracks` (backend/tidal.py lines 72-90): chunks of 50,
one POST per chunk, stopping at the first error. -/
def tidalAddGo (pid : String) (resp : ℕ → Except String Unit) :
    List (List String) → ℕ → List TEff → Except String Unit × List TEff
  | [], _, acc => (Except.ok (), acc)
  | c :: cs, k, acc =>
    match resp k with
    | Except.ok _ => tidalAddGo pid resp cs (k + 1) (acc ++ [TEff.add pid c])
    | Except.error e => (Except.error e, acc ++ [TEff.add pid c])

def tidalAddTracks (pid : String) (ids : List String)
    (resp : ℕ → Except String Unit) : Except String Unit × List TEff :=
  if ids = [] then (Except.ok (), [])
  else tidalAddGo pid resp (chunked 49 ids) 0 []

/-- `job.source_playlist_name or "Imported Playlist"`. -/
def nameOf (job : Job) : String :=
  match job.source_playlist_name with
  | some s => if s ≠ "" then s else "Imported Playlist"
  | none => "Imported Playlist"

/-- `track_ids = [i.selected_match_id for i in items if i.selected_match_id]`
over the job's MATCHED items (backend/worker.py lines 29-30). -/
def trackIdsOf (st : Store) (jid : ℕ) : List String :=
  (st.items.filter
    (fun i => i.job_id == jid && i.status == ItemStatus.MATCHED)).filterMap
    (fun i => match i.selected_match_id with
      | some s => if s ≠ "" then some s else none
      | none => none)

/-- `worker.finalize_import_job` (backend/worker.py lines 20-121).  A
missing job returns; no matched track ids sets DONE and returns before any
provider contact; the TIDAL branch creates a playlist and adds the raw
`track_ids`; every other provider falls through to the
`elif job.target_provider == Provider.QOBUZ` comparison, which raises
`AttributeError` (models.Provider has no QOBUZ member) — the handler
records FAILED. -/
def finalizeImportJob (st : Store) (orc : FinOracle) (jid : ℕ) :
    Store × List TEff :=
  match findJob st jid with
  | none => (st, [])
  | some job =>
    if trackIdsOf st jid = [] then
      (updateJob st jid (fun j => { j with status := JobStatus.DONE }), [])
    else
      match job.target_provider with
      | Provider.TIDAL =>
        match findConn st job.user_id Provider.TIDAL with
        | none => (failJob st jid "TIDAL connection not found for user.", [])
        | some conn =>
          if ¬ truthyOpt conn.access_token then
            (failJob st jid "TIDAL access token missing for user.", [])
          else
            match orc.tidalUserId with
            | Except.error e => (failJob st jid e, [TEff.userIdCall])
            | Except.ok _ =>
              match orc.tidalCreate with
              | Except.error e =>
                (failJob st jid e, [TEff.userIdCall, TEff.create (nameOf job)])
              | Except.ok uuid =>
                match (tidalAddTracks uuid (trackIdsOf st jid) orc.tidalAdd).1 with
                | Except.error e =>
                  (failJob st jid e,
                    TEff.userIdCall :: TEff.create (nameOf job)
                      :: (tidalAddTracks uuid (trackIdsOf st jid) orc.tidalAdd).2)
                | Except.ok _ =>
                  (updateJob st jid (fun j =>
                      { j with
                        status := JobStatus.DONE
                        target_playlist_id := some uuid }),
                    TEff.userIdCall :: TEff.create (nameOf job)
                      :: (tidalAddTracks uuid (trackIdsOf st jid) orc.tidalAdd).2)
      | _ =>
        (failJob st jid "AttributeError: type object Provider has no attribute QOBUZ", [])

/-! ### Claim C9: `routers/imports.py submit_review` -/

/-- One review decision (`item_id`, `"confirm" | "reject"`, optional
override `match_id`, optional replacement `match_data`). -/
structure RevDecision where
  item_id : ℕ
  decision : String
  match_id : Option String
  match_data : Option MData
deriving DecidableEq, Repr

/-- The per-item effect of one decision (backend/routers/imports.py lines
236-247): confirm with a truthy override sets MATCHED and the override
(and replaces `match_data` when provided); confirm without an override
uses the stored best candidate id when it is truthy, else does nothing;
reject sets NOT_FOUND and clears the selected id; any other decision
string does nothing. -/
def applyOne (it : RItem) (d : RevDecision) : RItem :=
  if d.decision == "confirm" then
    if truthyOpt d.match_id then
      { it with
        status := ItemStatus.MATCHED
        selected_match_id := d.match_id
        match_data := match d.match_data with
          | some m => some m
          | none => it.match_data }
    else
      match it.match_data with
      | some m =>
        if truthyOpt m.id then
          { it with status := ItemStatus.MATCHED, selected_match_id := m.id }
        else it
      | none => it
  else if d.decision == "reject" then
    { it with status := ItemStatus.NOT_FOUND, selected_match_id := none }
  else it

/-- `session.get(ImportItem, d["item_id"])` followed by the
`item.job_id == id` ownership check: only the matching item of the job is
mutated. -/
def applyDecision (jid : ℕ) (items : List RItem) (d : RevDecision) : List RItem :=
  items.map (fun it => if it.id == d.item_id && it.job_id == jid then applyOne it d else it)

/-- The `for d in decision_list` loop: decisions applied in order. -/
def applyDecisions (jid : ℕ) (items : List RItem) (ds : List RevDecision) : List RItem :=
  ds.foldl (applyDecision jid) items

lemma applyOne_id (it : RItem) (d : RevDecision) :
    (applyOne it d).id = it.id ∧ (applyOne it d).job_id = it.job_id := by
  rw [applyOne]
  split
  · split
    · exact ⟨rfl, rfl⟩
    · split
      · split
        · exact ⟨rfl, rfl⟩
        · exact ⟨rfl, rfl⟩
      · exact ⟨rfl, rfl⟩
  · split
    · exact ⟨rfl, rfl⟩
    · exact ⟨rfl, rfl⟩

/-- Claim C9: decisions are processed in order; confirm sets MATCHED and
the selected id (override when provided, else the stored best candidate
id); reject sets NOT_FOUND and clears the selected id; in particular
`[confirm X, reject X]` leaves item X NOT_FOUND with no selected id. -/
theorem C9_review_decisions :
    (∀ (it : RItem) (d : RevDecision),
      d.decision = "confirm" → truthyOpt d.match_id = true →
        (applyOne it d).status = ItemStatus.MATCHED ∧
        (applyOne it d).selected_match_id = d.match_id) ∧
    (∀ (it : RItem) (d : RevDecision) (m : MData),
      d.decision = "confirm" → truthyOpt d.match_id = false →
      it.match_data = some m → truthyOpt m.id = true →
        (applyOne it d).status = ItemStatus.MATCHED ∧
        (applyOne it d).selected_match_id = m.id) ∧
    (∀ (it : RItem) (d : RevDecision),
      d.decision = "reject" →
        (applyOne it d).status = ItemStatus.NOT_FOUND ∧
        (applyOne it d).selected_match_id = none) ∧
    (∀ (jid : ℕ) (items : List RItem) (x : ℕ) (mid : Option String)
        (md : Option MData) (it : RItem),
      it ∈ applyDecisions jid items
        [⟨x, "confirm", mid, md⟩, ⟨x, "reject", none, none⟩] →
      it.id = x → it.job_id = jid →
        it.status = ItemStatus.NOT_FOUND ∧ it.selected_match_id = none) := by
  have hreject : ∀ (it : RItem) (d : RevDecision), d.decision = "reject" →
      (applyOne it d).status = ItemStatus.NOT_FOUND ∧
      (applyOne it d).selected_match_id = none := by
    intro it d h1
    rw [applyOne, h1]
    rw [if_neg (by decide : ¬ ((("reject" : String) == "confirm") = true))]
    rw [if_pos (show (("reject" : String) == "reject") = true from rfl)]
    exact ⟨rfl, rfl⟩
  refine ⟨?_, ?_, hreject, ?_⟩
  · intro it d h1 h2
    rw [applyOne, h1]
    rw [if_pos (show (("confirm" : String) == "confirm") = true from rfl)]
    rw [h2]
    rw [if_pos rfl]
    exact ⟨rfl, rfl⟩
  · intro it d m h1 h2 hm hid
    rw [applyOne, h1]
    rw [if_pos (show (("confirm" : String) == "confirm") = true from rfl)]
    rw [h2]
    rw [if_neg (by decide : ¬ ((false : Bool) = true))]
    rw [hm]
    simp only
    rw [hid]
    rw [if_pos rfl]
    exact ⟨rfl, rfl⟩
  · intro jid items x mid md it hmem hidx hjob
    simp only [applyDecisions, List.foldl_cons, List.foldl_nil] at hmem
    rw [applyDecision] at hmem
    obtain ⟨y, hy, hyeq⟩ := List.mem_map.mp hmem
    by_cases hc : (y.id == x && y.job_id == jid) = true
    · rw [if_pos hc] at hyeq
      subst hyeq
      exact hreject y _ rfl
    · rw [if_neg hc] at hyeq
      subst hyeq
      exfalso
      apply hc
      simp only [Bool.and_eq_true, beq_iff_eq]
      exact ⟨hidx, hjob⟩

/-- Witness for C9: a concrete confirm-then-reject run on one item. -/
theorem C9_review_decisions_witness :
    ((⟨5, 3, ItemStatus.NOT_FOUND, none, some ⟨some "b", "r"⟩⟩ : RItem) ∈
      applyDecisions 3 [⟨5, 3, ItemStatus.UNCERTAIN, some "q", some ⟨some "b", "r"⟩⟩]
        [⟨5, "confirm", some "z", none⟩, ⟨5, "reject", none, none⟩]) ∧
    ((⟨5, 3, ItemStatus.NOT_FOUND, none, some ⟨some "b", "r"⟩⟩ : RItem).status
      = ItemStatus.NOT_FOUND ∧
     (⟨5, 3, ItemStatus.NOT_FOUND, none, some ⟨some "b", "r"⟩⟩ : RItem).selected_match_id
      = none) :=
  ⟨by decide,
    (C9_review_decisions).2.2.2 3
      [⟨5, 3, ItemStatus.UNCERTAIN, some "q", some ⟨some "b", "r"⟩⟩] 5 (some "z") none
      ⟨5, 3, ItemStatus.NOT_FOUND, none, some ⟨some "b", "r"⟩⟩ (by decide) rfl rfl⟩

/-! ### Claim C2: no state guard in the orchestrator -/

lemma find_map_update (jid : ℕ) (f : Job → Job) (hf : ∀ j, (f j).id = j.id) :
    ∀ (l : List Job),
      (l.map (fun j => if j.id == jid then f j else j)).find? (fun j => j.id == jid)
        = (l.find? (fun j => j.id == jid)).map f := by
  intro l
  induction l with
  | nil => rfl
  | cons j l ih =>
    simp only [List.map_cons]
    by_cases h : (j.id == jid) = true
    · rw [if_pos h]
      have hfj : ((f j).id == jid) = true := by rw [hf j]; exact h
      simp only [List.find?, hfj, h]
      rfl
    · rw [if_neg h]
      rw [Bool.not_eq_true] at h
      simp only [List.find?, h]
      exact ih

lemma findJob_updateJob (st : Store) (jid : ℕ) (f : Job → Job)
    (hf : ∀ j, (f j).id = j.id) :
    findJob (updateJob st jid f) jid = (findJob st jid).map f :=
  find_map_update jid f hf st.jobs

lemma findJob_failJob (st : Store) (jid : ℕ) (msg : String) (j : Job)
    (hj : findJob st jid = some j) :
    (findJob (failJob st jid msg) jid).map Job.status = some JobStatus.FAILED := by
  rw [failJob, findJob_updateJob st jid
    (fun j => { j with status := JobStatus.FAILED, error_message := some msg })
    (fun _ => rfl), hj]
  rfl

/-- Counterexample for claim C2: a job in the terminal DONE state (not
QUEUED) dispatched to the match stage is not left unchanged — the worker
has no state check, marks it RUNNING, and this run ends FAILED. -/
theorem C2_guard_counterexample :
    (findJob ⟨[⟨1, 7, Provider.YTM, JobStatus.DONE, none, none, none⟩], [], []⟩ 1).map
      Job.status = some JobStatus.DONE ∧
    (findJob (processImportJob
        ⟨[⟨1, 7, Provider.YTM, JobStatus.DONE, none, none, none⟩], [], []⟩ 1) 1).map
      Job.status = some JobStatus.FAILED ∧
    JobStatus.DONE ≠ JobStatus.QUEUED ∧ JobStatus.FAILED ≠ JobStatus.DONE := by
  refine ⟨?_, ?_, ?_, ?_⟩ <;> decide

/-- Claim C2 (amended): the worker refuses only a missing job id (the
store is returned unchanged); it never checks the job state: the match
stage runs for a job in any state (marking it RUNNING and, in this code,
always ending FAILED — worker.py line 155 passes `on_token_refresh` to a
constructor that does not accept it), and the finalize stage runs for a
job in any state, ending DONE or FAILED. -/
theorem C2_no_state_guard (st : Store) (jid : ℕ) (orc : FinOracle) :
    (∀ j, findJob st jid = some j →
      (findJob (processImportJob st jid) jid).map Job.status
        = some JobStatus.FAILED) ∧
    (findJob st jid = none →
      processImportJob st jid = st ∧ finalizeImportJob st orc jid = (st, [])) ∧
    (∀ j, findJob st jid = some j →
      (findJob (finalizeImportJob st orc jid).1 jid).map Job.status
        = some JobStatus.DONE ∨
      (findJob (finalizeImportJob st orc jid).1 jid).map Job.status
        = some JobStatus.FAILED) := by
  refine ⟨?_, ?_, ?_⟩
  · intro j hj
    rw [processImportJob, hj]
    simp only
    have hst1 : findJob (updateJob st jid
        (fun j => { j with status := JobStatus.RUNNING })) jid
        = some { j with status := JobStatus.RUNNING } := by
      rw [findJob_updateJob st jid
        (fun j => { j with status := JobStatus.RUNNING }) (fun _ => rfl), hj]
      rfl
    cases hc : findConn (updateJob st jid
        (fun j => { j with status := JobStatus.RUNNING })) j.user_id Provider.SPOTIFY with
    | none =>
      simp only
      exact findJob_failJob _ _ _ _ hst1
    | some conn =>
      simp only
      by_cases htok : ¬ truthyOpt conn.access_token = true ∧
          ¬ truthyOpt conn.refresh_token = true
      · rw [if_pos htok]
        exact findJob_failJob _ _ _ _ hst1
      · rw [if_neg htok]
        exact findJob_failJob _ _ _ _ hst1
  · intro hj
    constructor
    · rw [processImportJob, hj]
    · rw [finalizeImportJob, hj]
  · intro j hj
    rw [finalizeImportJob, hj]
    simp only
    by_cases htr : trackIdsOf st jid = []
    · rw [if_pos htr]
      left
      rw [findJob_updateJob st jid
        (fun j => { j with status := JobStatus.DONE }) (fun _ => rfl), hj]
      rfl
    · rw [if_neg htr]
      cases hp : j.target_provider with
      | TIDAL =>
        simp only
        cases hcn : findConn st j.user_id Provider.TIDAL with
        | none =>
          simp only
          right; exact findJob_failJob _ _ _ _ hj
        | some conn =>
          simp only
          by_cases htok : ¬ truthyOpt conn.access_token = true
          · rw [if_pos htok]
            right; exact findJob_failJob _ _ _ _ hj
          · rw [if_neg htok]
            cases huid : orc.tidalUserId with
            | error e =>
              simp only
              right; exact findJob_failJob _ _ _ _ hj
            | ok uid =>
              simp only
              cases hcr : orc.tidalCreate with
              | error e =>
                simp only
                right; exact findJob_failJob _ _ _ _ hj
              | ok uuid =>
                simp only
                cases hadd : (tidalAddTracks uuid (trackIdsOf st jid) orc.tidalAdd).1 with
                | error e =>
                  simp only
                  right; exact findJob_failJob _ _ _ _ hj
                | ok u =>
                  simp only
                  left
                  rw [findJob_updateJob st jid
                    (fun j => { j with
                      status := JobStatus.DONE
                      target_playlist_id := some uuid }) (fun _ => rfl), hj]
                  rfl
      | SPOTIFY =>
        simp only
        right; exact findJob_failJob _ _ _ _ hj
      | YTM =>
        simp only
        right; exact findJob_failJob _ _ _ _ hj

/-- Witness for C2 at a concrete input: a QUEUED job dispatched to match
ends FAILED (runs; is not refused), and a missing id leaves the store
unchanged. -/
theorem C2_no_state_guard_witness :
    ((findJob (processImportJob
        ⟨[⟨1, 7, Provider.TIDAL, JobStatus.QUEUED, none, none, none⟩], [], []⟩ 1) 1).map
      Job.status = some JobStatus.FAILED) ∧
    (processImportJob
        ⟨[⟨1, 7, Provider.TIDAL, JobStatus.QUEUED, none, none, none⟩], [], []⟩ 2
      = ⟨[⟨1, 7, Provider.TIDAL, JobStatus.QUEUED, none, none, none⟩], [], []⟩) :=
  ⟨(C2_no_state_guard
      ⟨[⟨1, 7, Provider.TIDAL, JobStatus.QUEUED, none, none, none⟩], [], []⟩ 1
      ⟨Except.ok "u", Except.ok "p", fun _ => Except.ok ()⟩).1
      ⟨1, 7, Provider.TIDAL, JobStatus.QUEUED, none, none, none⟩ (by decide),
   ((C2_no_state_guard
      ⟨[⟨1, 7, Provider.TIDAL, JobStatus.QUEUED, none, none, none⟩], [], []⟩ 2
      ⟨Except.ok "u", Except.ok "p", fun _ => Except.ok ()⟩).2.1 (by decide)).1⟩

/-! ### Claim C10: finalize with no matched items -/

lemma trackIds_nil (st : Store) (jid : ℕ)
    (hitems : ∀ i ∈ st.items, i.job_id = jid →
      ¬ (i.status = ItemStatus.MATCHED ∧ truthyOpt i.selected_match_id = true)) :
    trackIdsOf st jid = [] := by
  rw [trackIdsOf, List.filterMap_eq_nil_iff]
  intro i hi
  rw [List.mem_filter] at hi
  obtain ⟨hmem, hpred⟩ := hi
  simp only [Bool.and_eq_true, beq_iff_eq] at hpred
  have hne := hitems i hmem hpred.1
  cases hsel : i.selected_match_id with
  | none => rfl
  | some s =>
    simp only
    rw [if_neg ?_]
    intro hs
    apply hne
    refine ⟨hpred.2, ?_⟩
    rw [hsel]
    simp only [truthyOpt]
    simpa using hs

/-- Claim C10: when no item of the job is MATCHED with a non-empty
selected target id, finalize transitions the job to DONE without
contacting the target provider — no provider call is made and
`target_playlist_id` is unchanged (null stays null). -/
theorem C10_finalize_no_matches (st : Store) (orc : FinOracle) (jid : ℕ)
    (j : Job) (hj : findJob st jid = some j)
    (hitems : ∀ i ∈ st.items, i.job_id = jid →
      ¬ (i.status = ItemStatus.MATCHED ∧ truthyOpt i.selected_match_id = true)) :
    (finalizeImportJob st orc jid).2 = [] ∧
    (findJob (finalizeImportJob st orc jid).1 jid).map Job.status
      = some JobStatus.DONE ∧
    (findJob (finalizeImportJob st orc jid).1 jid).map Job.target_playlist_id
      = some j.target_playlist_id := by
  have htr := trackIds_nil st jid hitems
  rw [finalizeImportJob, hj]
  simp only
  rw [if_pos htr]
  refine ⟨rfl, ?_, ?_⟩
  · rw [findJob_updateJob st jid
      (fun j => { j with status := JobStatus.DONE }) (fun _ => rfl), hj]
    rfl
  · rw [findJob_updateJob st jid
      (fun j => { j with status := JobStatus.DONE }) (fun _ => rfl), hj]
    rfl

/-- Witness for C10: a WAITING_REVIEW TIDAL job whose only item is
NOT_FOUND; finalize makes it DONE with no provider call. -/
theorem C10_finalize_no_matches_witness :
    (finalizeImportJob
      ⟨[⟨1, 7, Provider.TIDAL, JobStatus.WAITING_REVIEW, none, none, some "N"⟩],
       [⟨1, 1, ItemStatus.NOT_FOUND, none, none⟩], []⟩
      ⟨Except.ok "u", Except.ok "p", fun _ => Except.ok ()⟩ 1).2 = [] ∧
    (findJob (finalizeImportJob
      ⟨[⟨1, 7, Provider.TIDAL, JobStatus.WAITING_REVIEW, none, none, some "N"⟩],
       [⟨1, 1, ItemStatus.NOT_FOUND, none, none⟩], []⟩
      ⟨Except.ok "u", Except.ok "p", fun _ => Except.ok ()⟩ 1).1 1).map Job.status
      = some JobStatus.DONE ∧
    (findJob (finalizeImportJob
      ⟨[⟨1, 7, Provider.TIDAL, JobStatus.WAITING_REVIEW, none, none, some "N"⟩],
       [⟨1, 1, ItemStatus.NOT_FOUND, none, none⟩], []⟩
      ⟨Except.ok "u", Except.ok "p", fun _ => Except.ok ()⟩ 1).1 1).map
      Job.target_playlist_id
      = some (⟨1, 7, Provider.TIDAL, JobStatus.WAITING_REVIEW, none, none,
          some "N"⟩ : Job).target_playlist_id :=
  C10_finalize_no_matches
    ⟨[⟨1, 7, Provider.TIDAL, JobStatus.WAITING_REVIEW, none, none, some "N"⟩],
     [⟨1, 1, ItemStatus.NOT_FOUND, none, none⟩], []⟩
    ⟨Except.ok "u", Except.ok "p", fun _ => Except.ok ()⟩ 1
    ⟨1, 7, Provider.TIDAL, JobStatus.WAITING_REVIEW, none, none, some "N"⟩
    (by decide) (by decide)

/-! ### Claim C8: duplicate target ids in a worker finalize run -/

/-- Evaluation of the worker finalize at the failing input for claim C8:
two MATCHED items of a TIDAL job share the selected target id "t1";
`finalize_import_job` builds `track_ids = ["t1", "t1"]` with no
de-duplication and `TidalClient.add_tracks` posts both in a single chunk,
so the id is inserted twice — whereas the de-duplication the claim
describes exists only in the synchronous `create_ytm_playlist` path
(`dedupFirst` keeps one occurrence). -/
theorem C8_duplicate_insert_bug :
    (finalizeImportJob
      ⟨[⟨1, 7, Provider.TIDAL, JobStatus.IMPORTING, none, none, some "N"⟩],
       [⟨1, 1, ItemStatus.MATCHED, some "t1", none⟩,
        ⟨2, 1, ItemStatus.MATCHED, some "t1", none⟩],
       [⟨7, Provider.TIDAL, some "tok", none⟩]⟩
      ⟨Except.ok "u", Except.ok "uuid1", fun _ => Except.ok ()⟩ 1).2
      = [TEff.userIdCall, TEff.create "N", TEff.add "uuid1" ["t1", "t1"]] ∧
    dedupFirst [some "t1", some "t1"] = ["t1"] := by
  refine ⟨?_, ?_⟩ <;> decide

/-! ### Claim C6: bearer-token refresh and the credential callback -/

/-- The keyword parameters accepted by `SpotifyClient.__init__`
(backend/spotify.py line 41): only these two — there is no
`on_token_refresh` parameter and no callback attribute anywhere in the
class. -/
def spotifyInitParams : List String := ["access_token", "refresh_token"]

/-- The keyword arguments `worker.process_import_job` passes at line 155
(also used by `tests/test_spotify_client.py`). -/
def workerSpotifyKwargs : List String :=
  ["access_token", "refresh_token", "on_token_refresh"]

/-- Python call semantics: a call is accepted only when every keyword
argument names a declared parameter; otherwise `TypeError`. -/
def pyCallAccepts (params kwargs : List String) : Bool :=
  kwargs.all (fun k => params.contains k)

inductive SpEv where
  | http (tok : String)
  | refresh
deriving DecidableEq, Repr

/-- `SpotifyClient._request` (backend/spotify.py lines 94-122): one
request; on 401 refresh the token in place (`_refresh_access_token`, which
invokes no callback — none exists) and retry exactly once;
`raise_for_status` turns any remaining ≥ 400 status into `SpotifyError`.
The oracle `status` gives the HTTP status per bearer token;
`refreshResult` is the refresh outcome. -/
def spotifyRequest (tok : String) (refreshResult : Except Unit String)
    (status : String → ℕ) : Except String ℕ × List SpEv :=
  if status tok = 401 then
    match refreshResult with
    | Except.error _ =>
      (Except.error "SpotifyError: failed to refresh token",
        [SpEv.http tok, SpEv.refresh])
    | Except.ok tok2 =>
      if 400 ≤ status tok2 then
        (Except.error "SpotifyError: API error",
          [SpEv.http tok, SpEv.refresh, SpEv.http tok2])
      else (Except.ok (status tok2), [SpEv.http tok, SpEv.refresh, SpEv.http tok2])
  else if 400 ≤ status tok then
    (Except.error "SpotifyError: API error", [SpEv.http tok])
  else (Except.ok (status tok), [SpEv.http tok])

/-- Claim C6 is the intended behavior (the unit test
`test_token_refresh_callback` constructs `SpotifyClient` with
`on_token_refresh` and asserts the callback fires), but the code cannot
deliver it: the constructor accepts no such keyword, so the worker's call
raises `TypeError`; and the retry path performs exactly one refresh and
one retry but hands the new credential to no callback. -/
theorem C6_refresh_callback_bug :
    pyCallAccepts spotifyInitParams workerSpotifyKwargs = false ∧
    (spotifyRequest "t1" (Except.ok "t2") (fun _ => 401)).2
      = [SpEv.http "t1", SpEv.refresh, SpEv.http "t2"] ∧
    (spotifyRequest "t1" (Except.ok "t2") (fun _ => 401)).1
      = Except.error "SpotifyError: API error" := by
  refine ⟨by decide, by decide, rfl⟩
